import Mathlib

/-!
# Chainsaw: shard split/join verification

A shallow embedding of the `chainsaw` file-sharding utility
(`src/split.cc`, `src/join.cc`, `src/shard_hdr.h`), with theorems settling
the specification claims.

Modelling conventions:
* A byte is a `Nat` (payload bytes are `< 256` in well-formed inputs).
* Machine integers (`uint64_t`, `size_t`) are `Nat`; the one place where
  unsigned wraparound matters (`max_shard_size - sizeof(shard_hdr_t)` in
  `split.cc:78`) is modelled explicitly with `sub64`.
* Files are modelled structurally: a shard file is its decoded header plus
  its payload byte list (split writes exactly `header ++ payload`, and join
  reads them back the same way, so the byte-level serialisation round-trips
  inside one platform and can be elided).  The header record's byte-level
  size and offsets are modelled separately (`shardHdrOffsets`,
  `sizeofShardHdr`) from the field list of `shard_hdr_t` under the
  x86-64 System V / Itanium C++ ABI natural-alignment rules, which is what
  `sizeof(shard_hdr_t)` denotes in the arithmetic of `split.cc`/`join.cc`.
* Fallible operations return `Except`.
-/

namespace Chainsaw

/-- A byte of file content, kept as a `Nat`. -/
abbrev Byte := Nat

/-! ## CRC-32 accumulator

Modelled from the spec: the repository declares `update_crc` in
`src/crc.h` but its implementation file is not under `src/`; the spec
(§1, §6) treats it as an external collaborator, "an incremental CRC-32
accumulator" whose update over two consecutive sub-spans equals the update
over their concatenation.  We model the standard reflected CRC-32
(polynomial `0xEDB88320`) as a byte-at-a-time left fold, which is a genuine
CRC-32 core and satisfies the stated concatenation contract
(`updateCrc_append`). -/

/-- The reflected CRC-32 generator polynomial. -/
def crcPoly : Nat := 0xEDB88320

/-- One LFSR step of the reflected CRC-32. -/
def crcRound (s : Nat) : Nat :=
  (s >>> 1) ^^^ (if s % 2 = 1 then crcPoly else 0)

/-- `n` LFSR steps of the reflected CRC-32. -/
def crcRoundN : Nat → Nat → Nat
  | 0, s => s
  | n + 1, s => crcRound (crcRoundN n s)

/-- Absorb one byte into the CRC state: xor it in, then run eight LFSR
steps. -/
def crcByte (s b : Nat) : Nat := crcRoundN 8 (s ^^^ b)

/-- Modelled from the spec: `update_crc(crc, buffer, size)` — absorb a list
of bytes into a running CRC-32 accumulator. -/
def updateCrc (c : Nat) (bs : List Byte) : Nat := bs.foldl crcByte c

/-! ## The `shard_hdr_t` record layout (`src/shard_hdr.h:9-38`)

`shard_hdr_t` is a plain C++ struct with no packing directives, so
`sizeof(shard_hdr_t)` — the header size used throughout `split.cc` and
`join.cc` — is fixed by the platform ABI's natural-alignment layout:
each field is placed at the next offset aligned to its alignment, and the
struct size is the end offset rounded up to the maximal field alignment. -/

/-- Round `n` up to the next multiple of `a`. -/
def alignUp (n a : Nat) : Nat := (n + a - 1) / a * a

/-- The `(size, alignment)` of each field of `shard_hdr_t`, in declaration
order: `magic : uint32_t`, `shard_idx shard_count : uint16_t`,
`original_size : uint64_t`, `original_crc : uint32_t`,
`shard_size : uint64_t`, `shard_crc : uint32_t`,
`original_name : char[256]` (x86-64 System V sizes/alignments). -/
def shardHdrFields : List (Nat × Nat) :=
  [(4, 4), (2, 2), (2, 2), (8, 8), (4, 4), (8, 8), (4, 4), (256, 1)]

/-- The byte offsets assigned to a field list laid out from offset `off`
under natural alignment. -/
def fieldOffsets (off : Nat) : List (Nat × Nat) → List Nat
  | [] => []
  | (sz, al) :: rest => alignUp off al :: fieldOffsets (alignUp off al + sz) rest

/-- The end offset after laying out a field list from offset `off`. -/
def layoutEnd (off : Nat) : List (Nat × Nat) → Nat
  | [] => off
  | (sz, al) :: rest => layoutEnd (alignUp off al + sz) rest

/-- The maximal alignment among a field list. -/
def maxAlign (fields : List (Nat × Nat)) : Nat :=
  fields.foldl (fun a p => max a p.2) 1

/-- The offsets of the eight fields of `shard_hdr_t`. -/
def shardHdrOffsets : List Nat := fieldOffsets 0 shardHdrFields

/-- The value of `sizeof(shard_hdr_t)`. -/
def sizeofShardHdr : Nat := alignUp (layoutEnd 0 shardHdrFields) (maxAlign shardHdrFields)

/-- The size the record would have if the fields were packed back-to-back
with no padding (the sum of the field sizes). -/
def packedShardHdrSize : Nat := (shardHdrFields.map Prod.fst).sum

/-- The expected value for `magic` (`src/shard_hdr.cc:5`). -/
def expectedMagic : Nat := 0xB007C8AD

/-- The decoded fields of a `shard_hdr_t` record. -/
structure ShardHdr where
  magic : Nat
  shard_idx : Nat
  shard_count : Nat
  original_size : Nat
  original_crc : Nat
  shard_size : Nat
  shard_crc : Nat
  original_name : String
deriving DecidableEq, Repr

/-- A shard file on disk: its header record followed by its payload. -/
structure ShardFile where
  hdr : ShardHdr
  payload : List Byte
deriving DecidableEq, Repr

/-! ## The splitter (`src/split.cc`) -/

/-- The errors `split` can throw (`split.cc:46-48`, `split.cc:63-65`). -/
inductive SplitErr where
  | tooManyShards
  | nameTooLong
deriving DecidableEq, Repr

/-- `2^64`, the modulus of `uint64_t` arithmetic. -/
def U64 : Nat := 2 ^ 64

/-- `uint64_t` subtraction `a - b` (wraps modulo `2^64`), for `a, b < 2^64`. -/
def sub64 (a b : Nat) : Nat := (a + U64 - b) % U64

/-- The base name of a path: everything after the last `/`, or the whole
path when there is no `/` (`split.cc:58-62`, via `strrchr`). -/
def baseName (path : String) : List Char :=
  (path.data.reverse.takeWhile (fun c => c ≠ '/')).reverse

/-- `make_shard_name` (`split.cc:16-21`): `path@idx.count`. -/
def makeShardName (path : String) (idx count : Nat) : String :=
  path ++ "@" ++ Nat.repr idx ++ "." ++ Nat.repr count

/-- One shard as produced by `split`: its file name, the header as first
written (`split.cc:86-87`, before the payload, with whatever `shard_crc`
the reused header struct happened to hold), the header as rewritten at
offset 0 after the payload (`split.cc:104-108`), and the payload bytes. -/
structure ShardOut where
  path : String
  preHdr : ShardHdr
  hdr : ShardHdr
  payload : List Byte
deriving DecidableEq, Repr

/-- The shard-creation loop of `split` (`split.cc:68-110`).  `hdr` is the
single header struct the code reuses across iterations; `k` is the number
of shards still to create, so the current shard index is `count - k + 1`.
Each iteration caps the payload at `min (sub64 M sizeofShardHdr) remaining`
(`split.cc:78-79`, with `uint64_t` wraparound) and consumes it from the
front of the remaining input. -/
def splitLoop (fileName : String) (count M : Nat) :
    Nat → ShardHdr → List Byte → List ShardOut
  | 0, _, _ => []
  | k + 1, hdr, remaining =>
    let idx := count - k
    let shardSize := min (sub64 M sizeofShardHdr) remaining.length
    let payload := remaining.take shardSize
    let pre : ShardHdr :=
      { hdr with shard_idx := idx, shard_size := shardSize + sizeofShardHdr }
    let fin : ShardHdr := { pre with shard_crc := updateCrc 0 payload }
    { path := makeShardName fileName idx count,
      preHdr := pre, hdr := fin, payload := payload }
      :: splitLoop fileName count M k fin (remaining.drop shardSize)

/-- `split(file_name, max_shard_size)` (`split.cc:23-111`).  Reads the whole
input for its CRC, computes `shard_count = ceil(size / max_shard_size)` in
`uint64_t` arithmetic, rejects more than 65535 shards, rejects a base name
of 256 or more characters, then runs the shard loop.  Both error paths
occur before any shard file is created. -/
def split (fileName : String) (content : List Byte) (M : Nat) :
    Except SplitErr (List ShardOut) :=
  let inSize := content.length
  let crc := updateCrc 0 content
  let bigShardCount := (inSize + M - 1) % U64 / M
  if bigShardCount > 65535 then
    .error .tooManyShards
  else
    let name := baseName fileName
    if name.length ≥ 256 then
      .error .nameTooLong
    else
      let hdr0 : ShardHdr :=
        { magic := expectedMagic, shard_idx := 0, shard_count := bigShardCount,
          original_size := inSize, original_crc := crc,
          shard_size := 0, shard_crc := 0, original_name := String.mk name }
      .ok (splitLoop fileName bigShardCount M bigShardCount hdr0 content)

/-! ## The joiner (`src/join.cc`) -/

/-- The errors `join` can throw. `openFailed` stands for the wrapped
"Could not open … as a shard" chain (`join.cc:31-35`), which covers a
missing file, a file shorter than a header, a bad magic, and a
`shard_size` disagreeing with the actual file size. -/
inductive JoinErr where
  | noShards
  | openFailed (path : String)
  | countMismatch (got expected : Nat)
  | noMatch (path : String)
  | duplicate (path : String)
  | damaged (path : String)
  | reconstructFailed
deriving DecidableEq, Repr

/-- The file system seen by `join`: a map from path to shard file. -/
abbrev FileSys := String → Option ShardFile

/-- `open_shard` (`join.cc:14-36`): open the file, read its header, and
check the magic and that the recorded `shard_size` equals the actual file
size (structurally, header size plus payload length). -/
def openShard (fs : FileSys) (path : String) : Except JoinErr ShardFile :=
  match fs path with
  | none => .error (.openFailed path)
  | some f =>
    if f.hdr.magic = expectedMagic ∧
        f.hdr.shard_size = sizeofShardHdr + f.payload.length then
      .ok f
    else
      .error (.openFailed path)

/-- Checked insertion into the idx-ordered shard map (`std::map::emplace`,
`join.cc:70-76`): `none` signals a duplicate shard index. -/
def mapInsert (k : Nat) (v : String) : List (Nat × String) → Option (List (Nat × String))
  | [] => some [(k, v)]
  | (k2, v2) :: rest =>
    if k < k2 then some ((k, v) :: (k2, v2) :: rest)
    else if k = k2 then none
    else (mapInsert k v rest).map (fun m => (k2, v2) :: m)

/-- The validation loop over the remaining paths (`join.cc:57-76`): open
each as a shard, cross-check the shared header fields against the master
header, and insert it into the idx-keyed map. -/
def joinValidate (fs : FileSys) (master : ShardHdr) :
    List String → List (Nat × String) → Except JoinErr (List (Nat × String))
  | [], m => .ok m
  | p :: rest, m => do
    let f ← openShard fs p
    if f.hdr.shard_count = master.shard_count ∧
        f.hdr.original_size = master.original_size ∧
        f.hdr.original_crc = master.original_crc ∧
        f.hdr.original_name = master.original_name then
      match mapInsert f.hdr.shard_idx p m with
      | none => .error (.duplicate p)
      | some m2 => joinValidate fs master rest m2
    else
      .error (.noMatch p)

/-- Everything `join` does before creating the destination file
(`join.cc:39-78`): reject an empty list, open the first path as the master
shard, check the supplied path count against `shard_count`, and build the
idx-ordered map from the remaining paths. -/
def joinPhase1 (fs : FileSys) (paths : List String) :
    Except JoinErr (ShardHdr × List (Nat × String)) :=
  match paths with
  | [] => .error .noShards
  | p0 :: rest => do
    let f0 ← openShard fs p0
    let master := f0.hdr
    if rest.length + 1 = master.shard_count then do
      let m ← joinValidate fs master rest [(master.shard_idx, p0)]
      .ok (master, m)
    else
      .error (.countMismatch (rest.length + 1) master.shard_count)

/-- Whether `join` reaches the point of creating the destination file:
`file_t::open_rw(master.original_name)` at `join.cc:81` runs exactly when
the whole validation phase has succeeded. -/
def joinDestCreated (fs : FileSys) (paths : List String) : Bool :=
  (joinPhase1 fs paths).isOk

/-- The reconstruction loop (`join.cc:82-104`): iterate the map in
ascending index order, re-open each shard, append its payload to the
output while accumulating the running whole-file CRC and a fresh per-shard
CRC, and fail naming the shard when its stored `shard_crc` disagrees. -/
def joinStream (fs : FileSys) :
    List (Nat × String) → Nat → List Byte → Except JoinErr (Nat × List Byte)
  | [], totalCrc, out => .ok (totalCrc, out)
  | (_, p) :: rest, totalCrc, out => do
    let f ← openShard fs p
    if f.hdr.shard_crc = updateCrc 0 f.payload then
      joinStream fs rest (updateCrc totalCrc f.payload) (out ++ f.payload)
    else
      .error (.damaged p)

/-- `join(file_names)` (`join.cc:39-111`): validation phase, streaming
phase, then the final check of the destination's size and running CRC
against the master header (`join.cc:105-109`). -/
def join (fs : FileSys) (paths : List String) : Except JoinErr (List Byte) := do
  let r1 ← joinPhase1 fs paths
  let r2 ← joinStream fs r1.2 0 []
  if r2.2.length = r1.1.original_size ∧ r2.1 = r1.1.original_crc then
    .ok r2.2
  else
    .error .reconstructFailed

/-! ## Describing a complete, mutually consistent shard set

`ShardSetDesc` names the data of a shard set: the shard count, the shared
header fields, and per-index payloads and file paths.  `IsValidSet` says a
file system holds exactly that set, complete and mutually consistent in
the sense of the spec (§3): indices `1..count`, one file per index,
matching shared fields, correct per-shard checksums and sizes, and
aggregate size/CRC matching the whole-file metadata. -/

structure ShardSetDesc where
  count : Nat
  osize : Nat
  ocrc : Nat
  oname : String
  payloadAt : Nat → List Byte
  pathAt : Nat → String

/-- The shard file with index `i` of a described set. -/
def setFile (d : ShardSetDesc) (i : Nat) : ShardFile :=
  { hdr := { magic := expectedMagic, shard_idx := i, shard_count := d.count,
             original_size := d.osize, original_crc := d.ocrc,
             shard_size := sizeofShardHdr + (d.payloadAt i).length,
             shard_crc := updateCrc 0 (d.payloadAt i),
             original_name := d.oname },
    payload := d.payloadAt i }

/-- The original content described by a set: the payloads concatenated in
index order. -/
def setContent (d : ShardSetDesc) : List Byte :=
  ((List.range' 1 d.count).map d.payloadAt).flatten

/-- The file system `fs` holds exactly the described set. -/
def IsValidSet (d : ShardSetDesc) (fs : FileSys) : Prop :=
  1 ≤ d.count ∧
  (∀ i ∈ List.range' 1 d.count, fs (d.pathAt i) = some (setFile d i)) ∧
  (∀ i ∈ List.range' 1 d.count, ∀ j ∈ List.range' 1 d.count,
    d.pathAt i = d.pathAt j → i = j) ∧
  (∀ i ∈ List.range' 1 d.count, ∀ b ∈ d.payloadAt i, b < 256) ∧
  (setContent d).length = d.osize ∧
  updateCrc 0 (setContent d) = d.ocrc

instance (d : ShardSetDesc) (fs : FileSys) : Decidable (IsValidSet d fs) := by
  unfold IsValidSet
  infer_instance

/-- The `(shard_idx, path)` pairs of the shards with the given indices. -/
def pairsOf (d : ShardSetDesc) (l : List Nat) : List (Nat × String) :=
  l.map (fun i => (i, d.pathAt i))

/-- Strict ordering of map entries by shard index. -/
def pairLt (a b : Nat × String) : Prop := a.1 < b.1

/-- The file system after overwriting the payload of the shard at index
`k` with `pre ++ b2 :: suf`, leaving its header bytes intact. -/
def corruptAt (fs : FileSys) (d : ShardSetDesc) (k : Nat)
    (pre : List Byte) (b2 : Byte) (suf : List Byte) : FileSys :=
  fun p =>
    if p = d.pathAt k then some { hdr := (setFile d k).hdr, payload := pre ++ b2 :: suf }
    else fs p

/-- The file that `join` actually finds at index `i` after the corruption
at index `k`: the corrupted file there, the set's file elsewhere. -/
def corruptFileAt (d : ShardSetDesc) (k : Nat) (pre : List Byte) (b2 : Byte)
    (suf : List Byte) (i : Nat) : ShardFile :=
  if i = k then { hdr := (setFile d k).hdr, payload := pre ++ b2 :: suf }
  else setFile d i

deriving instance DecidableEq for Except

/-! ## Concrete witness data

Small concrete shard sets used to instantiate the universally quantified
theorems below on explicit inputs. -/

/-- A one-shard set: the file `"data"` of one byte `[9]`. -/
def wset6 : ShardSetDesc :=
  { count := 1, osize := 1, ocrc := updateCrc 0 [9], oname := "data",
    payloadAt := fun _ => [9], pathAt := fun _ => "data@1.1" }

/-- A file system holding exactly `wset6`. -/
def wfs6 : FileSys :=
  fun p => if p = "data@1.1" then some (setFile wset6 1) else none

/-- A two-shard set: the file `"a"` of bytes `[10, 20, 30]` split as
`[10, 20]` and `[30]`. -/
def wset7 : ShardSetDesc :=
  { count := 2, osize := 3, ocrc := updateCrc 0 [10, 20, 30], oname := "a",
    payloadAt := fun i => if i = 1 then [10, 20] else [30],
    pathAt := fun i => if i = 1 then "a@1.2" else "a@2.2" }

/-- A file system holding exactly `wset7`. -/
def wfs7 : FileSys :=
  fun p =>
    if p = "a@1.2" then some (setFile wset7 1)
    else if p = "a@2.2" then some (setFile wset7 2)
    else none

/-- A lone shard whose header announces a set of two shards. -/
def wfile8 : ShardFile :=
  { hdr := { magic := expectedMagic, shard_idx := 1, shard_count := 2,
             original_size := 5, original_crc := 0,
             shard_size := sizeofShardHdr, shard_crc := 0,
             original_name := "x" },
    payload := [] }

/-- A file system holding only `wfile8` at `"s1"`. -/
def wfs8 : FileSys := fun p => if p = "s1" then some wfile8 else none

/-! ## Facts about the CRC-32 accumulator

The CRC state update is GF(2)-linear in the state (xor is the group
operation) and each LFSR step is injective on 32-bit states, because the
reflected polynomial `0xEDB88320` has its top bit set.  Consequently a
change in any single absorbed byte always changes the final accumulator
value — the fact behind join's corruption detection. -/

lemma xor_mod_two (a b : Nat) : (a ^^^ b) % 2 = (a % 2 + b % 2) % 2 := by
  have h := Nat.testBit_xor a b 0
  simp only [Nat.testBit_zero] at h
  rcases Nat.mod_two_eq_zero_or_one a with ha | ha <;>
    rcases Nat.mod_two_eq_zero_or_one b with hb | hb <;>
      simp [ha, hb] at h ⊢ <;> omega

lemma xor_shiftRight (a b : Nat) : (a ^^^ b) >>> 1 = (a >>> 1) ^^^ (b >>> 1) := by
  apply Nat.eq_of_testBit_eq
  intro i
  simp [Nat.testBit_shiftRight, Nat.testBit_xor]

lemma xor_xor_cancel (x y p : Nat) : (x ^^^ p) ^^^ (y ^^^ p) = x ^^^ y := by
  rw [Nat.xor_comm y p, ← Nat.xor_assoc, Nat.xor_assoc x p p, Nat.xor_self, Nat.xor_zero]

lemma xor_left_comm (a b c : Nat) : a ^^^ (b ^^^ c) = b ^^^ (a ^^^ c) := by
  rw [← Nat.xor_assoc, Nat.xor_comm a b, Nat.xor_assoc]

lemma xor_xor_self (p x : Nat) : p ^^^ (p ^^^ x) = x := by
  rw [← Nat.xor_assoc, Nat.xor_self, Nat.zero_xor]

/-- One LFSR step commutes with xor of states. -/
lemma crcRound_xor (a b : Nat) : crcRound (a ^^^ b) = crcRound a ^^^ crcRound b := by
  unfold crcRound
  have hp := xor_mod_two a b
  rcases Nat.mod_two_eq_zero_or_one a with ha | ha <;>
    rcases Nat.mod_two_eq_zero_or_one b with hb | hb <;>
      rw [ha, hb] at hp <;>
        simp [ha, hb, hp, xor_shiftRight, Nat.xor_assoc, Nat.xor_comm, xor_left_comm,
          xor_xor_cancel, xor_xor_self]

lemma crcRound_lt {s : Nat} (h : s < 2 ^ 32) : crcRound s < 2 ^ 32 := by
  unfold crcRound
  have h1 : s >>> 1 < 2 ^ 32 := by rw [Nat.shiftRight_one]; omega
  refine Nat.xor_lt_two_pow h1 ?_
  split <;> norm_num [crcPoly]

/-- An LFSR step sends no nonzero 32-bit state to zero. -/
lemma crcRound_eq_zero {s : Nat} (h : s < 2 ^ 32) (h0 : crcRound s = 0) : s = 0 := by
  unfold crcRound at h0
  rcases Nat.mod_two_eq_zero_or_one s with he | ho
  · rw [he, if_neg (by decide), Nat.xor_zero, Nat.shiftRight_one] at h0
    omega
  · exfalso
    rw [ho, if_pos rfl] at h0
    have hbit := congrArg (fun n => n.testBit 31) h0
    simp only [Nat.testBit_xor, Nat.testBit_shiftRight, Nat.zero_testBit] at hbit
    rw [Nat.testBit_lt_two_pow (show s < 2 ^ (1 + 31) from h)] at hbit
    exact absurd hbit (by decide)

lemma crcRound_inj {a b : Nat} (ha : a < 2 ^ 32) (hb : b < 2 ^ 32)
    (h : crcRound a = crcRound b) : a = b := by
  have h2 : crcRound (a ^^^ b) = 0 := by rw [crcRound_xor, h, Nat.xor_self]
  have h3 : a ^^^ b = 0 := crcRound_eq_zero (Nat.xor_lt_two_pow ha hb) h2
  have h4 := congrArg (fun n => n ^^^ b) h3
  simpa [Nat.xor_assoc, Nat.xor_self, Nat.xor_zero, Nat.zero_xor] using h4

lemma crcRoundN_lt (n : Nat) {s : Nat} (h : s < 2 ^ 32) : crcRoundN n s < 2 ^ 32 := by
  induction n with
  | zero => exact h
  | succ n ih => exact crcRound_lt ih

lemma crcRoundN_inj (n : Nat) {a b : Nat} (ha : a < 2 ^ 32) (hb : b < 2 ^ 32)
    (h : crcRoundN n a = crcRoundN n b) : a = b := by
  induction n with
  | zero => exact h
  | succ n ih => exact ih (crcRound_inj (crcRoundN_lt n ha) (crcRoundN_lt n hb) h)

lemma crcByte_lt {s b : Nat} (hs : s < 2 ^ 32) (hb : b < 2 ^ 32) : crcByte s b < 2 ^ 32 :=
  crcRoundN_lt 8 (Nat.xor_lt_two_pow hs hb)

/-- Absorbing the same byte from different 32-bit states keeps the states
different. -/
lemma crcByte_ne_left {s t b : Nat} (hs : s < 2 ^ 32) (ht : t < 2 ^ 32) (hb : b < 2 ^ 32)
    (h : s ≠ t) : crcByte s b ≠ crcByte t b := by
  intro he
  apply h
  have h2 : s ^^^ b = t ^^^ b :=
    crcRoundN_inj 8 (Nat.xor_lt_two_pow hs hb) (Nat.xor_lt_two_pow ht hb) he
  have h3 := congrArg (fun n => n ^^^ b) h2
  simpa [Nat.xor_assoc, Nat.xor_self, Nat.xor_zero] using h3

/-- Absorbing different bytes from the same 32-bit state makes the states
different. -/
lemma crcByte_ne_right {s b b2 : Nat} (hs : s < 2 ^ 32) (hb : b < 2 ^ 32) (hb2 : b2 < 2 ^ 32)
    (h : b ≠ b2) : crcByte s b ≠ crcByte s b2 := by
  intro he
  apply h
  have h2 : s ^^^ b = s ^^^ b2 :=
    crcRoundN_inj 8 (Nat.xor_lt_two_pow hs hb) (Nat.xor_lt_two_pow hs hb2) he
  have h3 := congrArg (fun n => s ^^^ n) h2
  simpa [← Nat.xor_assoc, Nat.xor_self, Nat.zero_xor] using h3

/-- The concatenation contract from the spec (§6): updating with two
consecutive sub-spans equals updating once with the concatenation. -/
lemma updateCrc_append (c : Nat) (xs ys : List Byte) :
    updateCrc c (xs ++ ys) = updateCrc (updateCrc c xs) ys :=
  List.foldl_append _ _ _ _

lemma updateCrc_lt {bs : List Byte} (hb : ∀ x ∈ bs, x < 2 ^ 32) {c : Nat} (hc : c < 2 ^ 32) :
    updateCrc c bs < 2 ^ 32 := by
  induction bs generalizing c with
  | nil => exact hc
  | cons x xs ih =>
    exact ih (fun y hy => hb y (List.mem_cons_of_mem _ hy))
      (crcByte_lt hc (hb x (List.mem_cons_self _ _)))

/-- Feeding the same byte list to two different 32-bit states yields
different accumulator values. -/
lemma updateCrc_ne {bs : List Byte} (hb : ∀ x ∈ bs, x < 2 ^ 32) {s t : Nat}
    (hs : s < 2 ^ 32) (ht : t < 2 ^ 32) (h : s ≠ t) : updateCrc s bs ≠ updateCrc t bs := by
  induction bs generalizing s t with
  | nil => exact h
  | cons x xs ih =>
    have hx := hb x (List.mem_cons_self _ _)
    exact ih (fun y hy => hb y (List.mem_cons_of_mem _ hy))
      (crcByte_lt hs hx) (crcByte_lt ht hx) (crcByte_ne_left hs ht hx h)

/-- Changing a single byte anywhere in the input changes the CRC-32. -/
lemma updateCrc_single_change {p q : List Byte} {b b2 : Nat}
    (hp : ∀ x ∈ p, x < 2 ^ 32) (hq : ∀ x ∈ q, x < 2 ^ 32)
    (hb : b < 2 ^ 32) (hb2 : b2 < 2 ^ 32) (hne : b ≠ b2)
    {c : Nat} (hc : c < 2 ^ 32) :
    updateCrc c (p ++ b :: q) ≠ updateCrc c (p ++ b2 :: q) := by
  rw [updateCrc_append, updateCrc_append]
  have hs : updateCrc c p < 2 ^ 32 := updateCrc_lt hp hc
  show updateCrc (crcByte (updateCrc c p) b) q ≠ updateCrc (crcByte (updateCrc c p) b2) q
  exact updateCrc_ne hq (crcByte_lt hs hb) (crcByte_lt hs hb2)
    (crcByte_ne_right hs hb hb2 hne)

/-! ## Facts about `split` -/

lemma sizeofShardHdr_eq : sizeofShardHdr = 296 := by decide

/-- For `1 ≤ M < 2^64`, the `uint64_t` ceiling division of 0 by `M` is 0:
`ceil(0 / M) = 0`, so a zero-byte source gets a `shard_count` of zero. -/
lemma shardCount_nil {M : Nat} (h1 : 1 ≤ M) : (0 + M - 1) % U64 / M = 0 :=
  Nat.div_eq_of_lt (lt_of_le_of_lt (Nat.mod_le _ _) (by omega))

/-- Splitting an empty source runs the shard loop zero times and creates no
shard files. -/
lemma split_nil (fn : String) {M : Nat} (h1 : 1 ≤ M)
    (h2 : (baseName fn).length < 256) : split fn [] M = .ok [] := by
  simp only [split, List.length_nil]
  rw [shardCount_nil h1]
  rw [if_neg (by omega), if_neg (by omega)]
  rfl

/-- A string with no slash is its own base name. -/
lemma baseName_no_slash {l : List Char} (h : ∀ c ∈ l, c ≠ '/') :
    baseName (String.mk l) = l := by
  unfold baseName
  have : l.reverse.takeWhile (fun c => c ≠ '/') = l.reverse := by
    rw [List.takeWhile_eq_self_iff]
    intro c hc
    simpa using h c (List.mem_reverse.mp hc)
  rw [show (String.mk l).data = l from rfl, this, List.reverse_reverse]

/-- With an exhausted input, every remaining loop iteration writes a shard
with an empty payload. -/
lemma splitLoop_nil_payloads (fn : String) (cnt M : Nat) :
    ∀ (k : Nat) (hdr : ShardHdr),
      (splitLoop fn cnt M k hdr []).map (fun s => s.payload) = List.replicate k [] := by
  intro k
  induction k with
  | zero => intro hdr; rfl
  | succ k ih =>
    intro hdr
    simp only [splitLoop, List.length_nil, Nat.min_zero, List.take_nil, List.drop_nil,
      List.map_cons, ih, List.replicate_succ]

/-- When `max_shard_size < sizeof(shard_hdr_t)` the unsigned subtraction at
`split.cc:78` wraps around to a value of at least `2^64 - 295`. -/
lemma sub64_wrap {M : Nat} (h1 : 1 ≤ M) (h2 : M < sizeofShardHdr) :
    sub64 M sizeofShardHdr = U64 - sizeofShardHdr + M := by
  rw [sizeofShardHdr_eq] at h2 ⊢
  unfold sub64 U64 at *
  rw [Nat.mod_eq_of_lt (by omega)]
  omega

/-- In the wraparound regime the payload cap exceeds any remaining input of
realistic size, so the first shard swallows the whole source. -/
lemma splitLoop_wrap_first (fn : String) (cnt M : Nat) (k : Nat) (hdr : ShardHdr)
    (content : List Byte) (h1 : 1 ≤ M) (h2 : M < sizeofShardHdr)
    (hlen : content.length ≤ U64 - sizeofShardHdr) :
    (splitLoop fn cnt M (k + 1) hdr content).map (fun s => s.payload) =
      content :: List.replicate k [] := by
  have hcap : content.length ≤ sub64 M sizeofShardHdr := by
    rw [sub64_wrap h1 h2]; omega
  simp only [splitLoop, Nat.min_eq_right hcap, List.take_length, List.drop_length,
    List.map_cons, splitLoop_nil_payloads]

/-- The placeholder/final header chain produced by the shard loop: the
first shard's pre-payload header carries whatever `shard_crc` the reused
struct held on entry; each later shard's pre-payload header carries the
previous shard's final CRC; and each shard's header is rewritten exactly
once, changing only `shard_crc` to its payload's CRC. -/
lemma splitLoop_two_phase (fn : String) (cnt M : Nat) :
    ∀ (k : Nat) (hdr : ShardHdr) (rem : List Byte),
      (∀ s r2, splitLoop fn cnt M k hdr rem = s :: r2 →
          s.preHdr.shard_crc = hdr.shard_crc) ∧
      (∀ i s t, (splitLoop fn cnt M k hdr rem)[i]? = some s →
          (splitLoop fn cnt M k hdr rem)[i + 1]? = some t →
          t.preHdr.shard_crc = s.hdr.shard_crc) ∧
      (∀ s ∈ splitLoop fn cnt M k hdr rem,
          s.hdr = { s.preHdr with shard_crc := updateCrc 0 s.payload }) := by
  intro k
  induction k with
  | zero =>
    intro hdr rem
    refine ⟨?_, ?_, ?_⟩
    · intro s r2 hs
      exact absurd hs (by simp [splitLoop])
    · intro i s t hs _
      rw [show splitLoop fn cnt M 0 hdr rem = [] from rfl] at hs
      simp at hs
    · intro s hs
      rw [show splitLoop fn cnt M 0 hdr rem = [] from rfl] at hs
      simp at hs
  | succ k ih =>
    intro hdr rem
    have hstep : splitLoop fn cnt M (k + 1) hdr rem =
        { path := makeShardName fn (cnt - k) cnt,
          preHdr := { hdr with
                      shard_idx := cnt - k,
                      shard_size :=
                        min (sub64 M sizeofShardHdr) rem.length + sizeofShardHdr },
          hdr := { hdr with
                   shard_idx := cnt - k,
                   shard_size :=
                     min (sub64 M sizeofShardHdr) rem.length + sizeofShardHdr,
                   shard_crc :=
                     updateCrc 0 (rem.take (min (sub64 M sizeofShardHdr) rem.length)) },
          payload := rem.take (min (sub64 M sizeofShardHdr) rem.length) }
        :: splitLoop fn cnt M k
          { hdr with
            shard_idx := cnt - k,
            shard_size := min (sub64 M sizeofShardHdr) rem.length + sizeofShardHdr,
            shard_crc :=
              updateCrc 0 (rem.take (min (sub64 M sizeofShardHdr) rem.length)) }
          (rem.drop (min (sub64 M sizeofShardHdr) rem.length)) := rfl
    obtain ⟨ih1, ih2, ih3⟩ := ih
      { hdr with
        shard_idx := cnt - k,
        shard_size := min (sub64 M sizeofShardHdr) rem.length + sizeofShardHdr,
        shard_crc := updateCrc 0 (rem.take (min (sub64 M sizeofShardHdr) rem.length)) }
      (rem.drop (min (sub64 M sizeofShardHdr) rem.length))
    rw [hstep]
    refine ⟨?_, ?_, ?_⟩
    · rintro s r2 hs
      rw [List.cons.injEq] at hs
      rw [← hs.1]
    · intro i s t hs ht
      cases i with
      | zero =>
        simp only [List.getElem?_cons_zero, Option.some.injEq] at hs
        simp only [Nat.zero_add, List.getElem?_cons_succ] at ht
        cases hl : splitLoop fn cnt M k
            { hdr with
              shard_idx := cnt - k,
              shard_size := min (sub64 M sizeofShardHdr) rem.length + sizeofShardHdr,
              shard_crc :=
                updateCrc 0 (rem.take (min (sub64 M sizeofShardHdr) rem.length)) }
            (rem.drop (min (sub64 M sizeofShardHdr) rem.length)) with
        | nil => rw [hl] at ht; simp at ht
        | cons t0 l2 =>
          rw [hl] at ht
          simp only [List.getElem?_cons_zero, Option.some.injEq] at ht
          rw [← hs, ← ht, ih1 t0 l2 hl]
      | succ i =>
        simp only [List.getElem?_cons_succ] at hs ht
        exact ih2 i s t hs ht
    · intro s hs
      rcases List.mem_cons.mp hs with h | h
      · rw [h]
      · exact ih3 s h

/-- In the wraparound regime (`1 ≤ M < sizeof(shard_hdr_t)`), provided the
shard count fits in 16 bits and the name fits, split succeeds, the first
shard's payload is the entire source, and the remaining
`ceil(S/M) - 1` shards have empty payloads. -/
lemma split_wrap_eq (fn : String) (content : List Byte) (M : Nat)
    (h0 : content ≠ []) (h1 : 1 ≤ M) (h2 : M < sizeofShardHdr)
    (hc : (content.length + M - 1) / M ≤ 65535)
    (hn : (baseName fn).length < 256) :
    (split fn content M).map (fun l => l.map (fun s => s.payload)) =
      .ok (content :: List.replicate ((content.length + M - 1) / M - 1) []) := by
  have hM296 : M < 296 := by rw [sizeofShardHdr_eq] at h2; exact h2
  have hU : U64 = 18446744073709551616 := by norm_num [U64]
  have hS1 : 1 ≤ content.length := List.length_pos.mpr h0
  have hlt : (content.length + M - 1) / M < 65536 := by omega
  have hSmul : content.length + M - 1 < 65536 * M :=
    (Nat.div_lt_iff_lt_mul (by omega)).mp hlt
  have hSb : content.length ≤ U64 - sizeofShardHdr := by
    rw [sizeofShardHdr_eq, hU]; omega
  have hmod : (content.length + M - 1) % U64 = content.length + M - 1 :=
    Nat.mod_eq_of_lt (by omega)
  have hcnt1 : 1 ≤ (content.length + M - 1) / M :=
    (Nat.le_div_iff_mul_le (by omega)).mpr (by omega)
  obtain ⟨k, hk⟩ : ∃ k, (content.length + M - 1) / M = k + 1 :=
    ⟨(content.length + M - 1) / M - 1, by omega⟩
  simp only [split, hmod, hk]
  rw [if_neg (by omega), if_neg (by omega)]
  simp only [Except.map]
  rw [splitLoop_wrap_first fn (k + 1) M k _ content h1 h2 hSb]
  simp

/-! ## Facts about `join` -/

instance : IsAntisymm (Nat × String) pairLt :=
  ⟨fun _ _ h1 h2 => absurd (Nat.lt_trans h1 h2) (Nat.lt_irrefl _)⟩

lemma openShard_eq {fs : FileSys} {p : String} {f : ShardFile}
    (hfs : fs p = some f) (hmagic : f.hdr.magic = expectedMagic)
    (hsize : f.hdr.shard_size = sizeofShardHdr + f.payload.length) :
    openShard fs p = .ok f := by
  unfold openShard
  rw [hfs]
  simp [hmagic, hsize]

lemma openShard_setFile {d : ShardSetDesc} {fs : FileSys} {i : Nat}
    (hfs : fs (d.pathAt i) = some (setFile d i)) :
    openShard fs (d.pathAt i) = .ok (setFile d i) :=
  openShard_eq hfs rfl rfl

/-- Inserting a fresh key into the idx-ordered map succeeds, and the result
is the old map plus the new entry, still sorted. -/
lemma mapInsert_not_mem (k : Nat) (v : String) :
    ∀ (m : List (Nat × String)), k ∉ m.map Prod.fst →
      ∃ m2, mapInsert k v m = some m2 ∧ m2.Perm ((k, v) :: m) ∧
        (List.Sorted pairLt m → List.Sorted pairLt m2) := by
  intro m
  induction m with
  | nil =>
    intro _
    exact ⟨[(k, v)], rfl, List.Perm.refl _, fun _ => List.sorted_singleton _⟩
  | cons a rest ih =>
    intro hk
    obtain ⟨k2, v2⟩ := a
    simp only [List.map_cons, List.mem_cons] at hk
    push_neg at hk
    obtain ⟨hk1, hk2⟩ := hk
    by_cases hlt : k < k2
    · refine ⟨(k, v) :: (k2, v2) :: rest, ?_, List.Perm.refl _, ?_⟩
      · unfold mapInsert
        rw [if_pos hlt]
      · intro hs
        rw [List.sorted_cons]
        refine ⟨?_, hs⟩
        intro b hb
        rcases List.mem_cons.mp hb with h | h
        · rw [h]; exact hlt
        · exact Nat.lt_trans hlt ((List.sorted_cons.mp hs).1 b h)
    · have hgt : k2 < k := by omega
      obtain ⟨m3, hm3, hperm, hsort⟩ := ih hk2
      refine ⟨(k2, v2) :: m3, ?_, ?_, ?_⟩
      · unfold mapInsert
        rw [if_neg hlt, if_neg hk1, hm3]
        rfl
      · exact (hperm.cons _).trans (List.Perm.swap _ _ _)
      · intro hs
        rw [List.sorted_cons] at hs ⊢
        refine ⟨?_, hsort hs.2⟩
        intro b hb
        rcases List.mem_cons.mp (hperm.mem_iff.mp hb) with h | h
        · rw [h]; exact hgt
        · exact hs.1 b h

/-- One successful step of the validation loop. -/
lemma joinValidate_cons {fs : FileSys} {master : ShardHdr} {p : String}
    {rest : List String} {m : List (Nat × String)} {f : ShardFile}
    (hopen : openShard fs p = .ok f) :
    joinValidate fs master (p :: rest) m =
      if f.hdr.shard_count = master.shard_count ∧
          f.hdr.original_size = master.original_size ∧
          f.hdr.original_crc = master.original_crc ∧
          f.hdr.original_name = master.original_name then
        match mapInsert f.hdr.shard_idx p m with
        | none => .error (.duplicate p)
        | some m2 => joinValidate fs master rest m2
      else .error (.noMatch p) := by
  simp only [joinValidate, hopen]
  rfl

/-- The validation loop over shards of a described set succeeds and
returns the accumulator extended by one entry per processed index,
keeping the map sorted. -/
lemma joinValidate_ok {d : ShardSetDesc} {fs : FileSys} {F : Nat → ShardFile}
    {master : ShardHdr}
    (hopen : ∀ i ∈ List.range' 1 d.count, openShard fs (d.pathAt i) = .ok (F i))
    (hhdr : ∀ i ∈ List.range' 1 d.count, (F i).hdr = (setFile d i).hdr)
    (hm : master.shard_count = d.count ∧ master.original_size = d.osize ∧
          master.original_crc = d.ocrc ∧ master.original_name = d.oname) :
    ∀ (js : List Nat) (m : List (Nat × String)),
      (∀ i ∈ js, i ∈ List.range' 1 d.count) →
      (js ++ m.map Prod.fst).Nodup →
      List.Sorted pairLt m →
      ∃ m2, joinValidate fs master (js.map d.pathAt) m = .ok m2 ∧
        m2.Perm (m ++ pairsOf d js) ∧ List.Sorted pairLt m2 := by
  intro js
  induction js with
  | nil =>
    intro m _ _ hs
    exact ⟨m, rfl, by simp [pairsOf], hs⟩
  | cons i js ih =>
    intro m hmem hnd hs
    have hi : i ∈ List.range' 1 d.count := hmem i (List.mem_cons_self _ _)
    have hnd2 : (i :: (js ++ m.map Prod.fst)).Nodup := hnd
    rw [List.nodup_cons] at hnd2
    have hke : i ∉ m.map Prod.fst := fun hmem2 =>
      hnd2.1 (List.mem_append_right _ hmem2)
    obtain ⟨m3, hins, hinsperm, hinssort⟩ := mapInsert_not_mem i (d.pathAt i) m hke
    rw [List.map_cons, joinValidate_cons (hopen i hi)]
    rw [if_pos (by rw [hhdr i hi]; exact ⟨hm.1.symm, hm.2.1.symm, hm.2.2.1.symm, hm.2.2.2.symm⟩)]
    have hidx : (F i).hdr.shard_idx = i := by rw [hhdr i hi]; rfl
    rw [hidx, hins]
    have hkeys : (m3.map Prod.fst).Perm (i :: m.map Prod.fst) := by
      simpa using hinsperm.map Prod.fst
    have hp2 : (i :: (js ++ m.map Prod.fst)).Perm (js ++ m3.map Prod.fst) :=
      List.Perm.trans List.perm_middle.symm (hkeys.symm.append_left js)
    have hnd3 : (js ++ m3.map Prod.fst).Nodup := hp2.nodup hnd
    obtain ⟨m4, hval, hperm4, hsort4⟩ := ih m3
      (fun j hj => hmem j (List.mem_cons_of_mem _ hj)) hnd3 (hinssort hs)
    refine ⟨m4, hval, ?_, hsort4⟩
    have hstep1 : (m3 ++ pairsOf d js).Perm (((i, d.pathAt i) :: m) ++ pairsOf d js) :=
      hinsperm.append_right _
    have hstep2 : (((i, d.pathAt i) :: m) ++ pairsOf d js).Perm
        (m ++ pairsOf d (i :: js)) := by
      show ((i, d.pathAt i) :: (m ++ pairsOf d js)).Perm
        (m ++ (i, d.pathAt i) :: pairsOf d js)
      exact List.perm_middle.symm
    exact (hperm4.trans hstep1).trans hstep2

/-- One step of the streaming loop whose shard opens successfully. -/
lemma joinStream_cons {fs : FileSys} {p : String} {f : ShardFile} {k : Nat}
    {rest : List (Nat × String)} {c : Nat} {out : List Byte}
    (hopen : openShard fs p = .ok f) :
    joinStream fs ((k, p) :: rest) c out =
      if f.hdr.shard_crc = updateCrc 0 f.payload then
        joinStream fs rest (updateCrc c f.payload) (out ++ f.payload)
      else .error (.damaged p) := by
  simp only [joinStream, hopen]
  rfl

/-- Streaming the shards of a described set appends the payloads in index
order and accumulates their CRC. -/
lemma joinStream_set {fs : FileSys} {d : ShardSetDesc} :
    ∀ (l : List Nat), (∀ i ∈ l, openShard fs (d.pathAt i) = .ok (setFile d i)) →
      ∀ (c : Nat) (out : List Byte),
        joinStream fs (pairsOf d l) c out =
          .ok (updateCrc c ((l.map d.payloadAt).flatten),
            out ++ (l.map d.payloadAt).flatten) := by
  intro l
  induction l with
  | nil =>
    intro _ c out
    simp [pairsOf, joinStream, updateCrc]
  | cons i l ih =>
    intro hop c out
    rw [show pairsOf d (i :: l) = (i, d.pathAt i) :: pairsOf d l from rfl]
    rw [joinStream_cons (hop i (List.mem_cons_self _ _)),
      if_pos (show (setFile d i).hdr.shard_crc = updateCrc 0 (setFile d i).payload from rfl)]
    rw [ih (fun j hj => hop j (List.mem_cons_of_mem _ hj))]
    rw [List.map_cons, List.flatten_cons, updateCrc_append, ← List.append_assoc]
    rfl

/-- Streaming stops with a corruption error naming the shard whose stored
`shard_crc` disagrees with its payload's CRC. -/
lemma joinStream_damaged {fs : FileSys} {p : String} {f : ShardFile} {k : Nat}
    {rest : List (Nat × String)} {c : Nat} {out : List Byte}
    (hopen : openShard fs p = .ok f)
    (hcrc : f.hdr.shard_crc ≠ updateCrc 0 f.payload) :
    joinStream fs ((k, p) :: rest) c out = .error (.damaged p) := by
  rw [joinStream_cons hopen, if_neg hcrc]

/-- A successful prefix of the streaming loop carries its CRC and output
into the rest of the loop. -/
lemma joinStream_append {fs : FileSys} :
    ∀ (m1 : List (Nat × String)) {m2 : List (Nat × String)} {c : Nat} {out : List Byte}
      {c2 : Nat} {out2 : List Byte},
      joinStream fs m1 c out = .ok (c2, out2) →
      joinStream fs (m1 ++ m2) c out = joinStream fs m2 c2 out2 := by
  intro m1
  induction m1 with
  | nil =>
    intro m2 c out c2 out2 h
    simp only [joinStream, Except.ok.injEq, Prod.mk.injEq] at h
    rw [show ([] : List (Nat × String)) ++ m2 = m2 from rfl, h.1, h.2]
  | cons a m1 ih =>
    intro m2 c out c2 out2 h
    obtain ⟨k, p⟩ := a
    cases hop : openShard fs p with
    | error e =>
      rw [show joinStream fs ((k, p) :: m1) c out = Except.error e from by
        simp only [joinStream, hop]
        rfl] at h
      exact absurd h (by simp)
    | ok f =>
      rw [show ((k, p) :: m1) ++ m2 = (k, p) :: (m1 ++ m2) from rfl]
      rw [joinStream_cons hop] at h ⊢
      by_cases hcrc : f.hdr.shard_crc = updateCrc 0 f.payload
      · rw [if_pos hcrc] at h ⊢
        exact ih h
      · rw [if_neg hcrc] at h
        exact absurd h (by simp)

/-- The idx-ordered pairs of a `range'` of indices are sorted. -/
lemma pairsOf_sorted (d : ShardSetDesc) (s n : Nat) :
    List.Sorted pairLt (pairsOf d (List.range' s n)) := by
  have h := List.pairwise_lt_range' s n 1
  unfold pairsOf
  exact List.Pairwise.map _ (fun a b hab => hab) h

/-- The validation phase when the first path opens as a shard. -/
lemma joinPhase1_cons {fs : FileSys} {p0 : String} {rest : List String} {f0 : ShardFile}
    (hopen : openShard fs p0 = .ok f0) :
    joinPhase1 fs (p0 :: rest) =
      if rest.length + 1 = f0.hdr.shard_count then
        (joinValidate fs f0.hdr rest [(f0.hdr.shard_idx, p0)]) >>= fun m =>
          .ok (f0.hdr, m)
      else .error (.countMismatch (rest.length + 1) f0.hdr.shard_count) := by
  simp only [joinPhase1, hopen]
  rfl

/-- On a described set presented in any order, the validation phase
succeeds with the first shard's header as the master and the full
idx-sorted map. -/
lemma joinPhase1_set {d : ShardSetDesc} {fs : FileSys} {F : Nat → ShardFile}
    (hopen : ∀ i ∈ List.range' 1 d.count, openShard fs (d.pathAt i) = .ok (F i))
    (hhdr : ∀ i ∈ List.range' 1 d.count, (F i).hdr = (setFile d i).hdr)
    {i0 : Nat} {irest : List Nat}
    (hp : (i0 :: irest).Perm (List.range' 1 d.count)) :
    joinPhase1 fs ((i0 :: irest).map d.pathAt) =
      .ok ((F i0).hdr, pairsOf d (List.range' 1 d.count)) := by
  have hi0 : i0 ∈ List.range' 1 d.count := hp.subset (List.mem_cons_self _ _)
  have hlen : irest.length + 1 = d.count := by
    have h := hp.length_eq
    simp only [List.length_cons, List.length_range'] at h
    exact h
  rw [List.map_cons, joinPhase1_cons (hopen i0 hi0)]
  have hm : (F i0).hdr.shard_count = d.count ∧ (F i0).hdr.original_size = d.osize ∧
      (F i0).hdr.original_crc = d.ocrc ∧ (F i0).hdr.original_name = d.oname := by
    rw [hhdr i0 hi0]
    exact ⟨rfl, rfl, rfl, rfl⟩
  rw [if_pos (by rw [hm.1, List.length_map]; exact hlen)]
  have hidx0 : (F i0).hdr.shard_idx = i0 := by rw [hhdr i0 hi0]; rfl
  rw [hidx0]
  have hnodup : (i0 :: irest).Nodup := hp.symm.nodup (List.nodup_range' _ _)
  have hnd : (irest ++ ([(i0, d.pathAt i0)].map Prod.fst)).Nodup :=
    (List.perm_append_singleton i0 irest).symm.nodup hnodup
  obtain ⟨m2, hval, hperm2, hsort2⟩ := joinValidate_ok hopen hhdr hm irest
    [(i0, d.pathAt i0)] (fun j hj => hp.subset (List.mem_cons_of_mem _ hj)) hnd
    (List.sorted_singleton _)
  rw [hval]
  have hperm3 : m2.Perm (pairsOf d (List.range' 1 d.count)) := by
    refine hperm2.trans ?_
    show (pairsOf d (i0 :: irest)).Perm (pairsOf d (List.range' 1 d.count))
    exact hp.map _
  have hm2 : m2 = pairsOf d (List.range' 1 d.count) :=
    List.eq_of_perm_of_sorted hperm3 hsort2 (pairsOf_sorted d 1 d.count)
  rw [hm2]
  rfl

/-- C7 — joining a complete, mutually consistent shard set succeeds for
every permutation of the path list and always writes the same bytes: the
set's payloads concatenated in index order. -/
theorem join_order_independent (d : ShardSetDesc) (fs : FileSys) (idxs : List Nat)
    (hv : IsValidSet d fs) (hp : idxs.Perm (List.range' 1 d.count)) :
    join fs (idxs.map d.pathAt) = .ok (setContent d) := by
  obtain ⟨hc1, hlook, hinj, hbytes, hsize, hcrc⟩ := hv
  cases idxs with
  | nil =>
    exfalso
    have h := hp.length_eq
    simp only [List.length_nil, List.length_range'] at h
    omega
  | cons i0 irest =>
    have hopen : ∀ i ∈ List.range' 1 d.count,
        openShard fs (d.pathAt i) = .ok (setFile d i) :=
      fun i hi => openShard_setFile (hlook i hi)
    have h1 := joinPhase1_set hopen (fun i _ => rfl) hp
    have h2 := joinStream_set (List.range' 1 d.count) hopen 0 []
    have hjoin : join fs ((i0 :: irest).map d.pathAt) =
        (joinStream fs (pairsOf d (List.range' 1 d.count)) 0 []) >>= fun r2 =>
          if r2.2.length = (setFile d i0).hdr.original_size ∧
              r2.1 = (setFile d i0).hdr.original_crc then .ok r2.2
          else .error .reconstructFailed := by
      simp only [join, h1]
      rfl
    rw [hjoin, h2]
    show (if (setContent d).length = (setFile d i0).hdr.original_size ∧
        updateCrc 0 (setContent d) = (setFile d i0).hdr.original_crc then
        Except.ok (setContent d) else Except.error JoinErr.reconstructFailed) =
      Except.ok (setContent d)
    rw [if_pos ⟨hsize, hcrc⟩]

/-- C8 — supplying fewer paths than the master's `shard_count` fails with
the count-mismatch error, before the destination file is created. -/
theorem join_too_few_paths (fs : FileSys) (p0 : String) (rest : List String)
    (f0 : ShardFile) (hopen : openShard fs p0 = .ok f0)
    (hlt : rest.length + 1 < f0.hdr.shard_count) :
    join fs (p0 :: rest) =
      .error (.countMismatch (rest.length + 1) f0.hdr.shard_count) ∧
    joinDestCreated fs (p0 :: rest) = false := by
  have h1 : joinPhase1 fs (p0 :: rest) =
      .error (.countMismatch (rest.length + 1) f0.hdr.shard_count) := by
    rw [joinPhase1_cons hopen, if_neg (by omega)]
  constructor
  · simp only [join, h1]
    rfl
  · simp only [joinDestCreated, h1]
    rfl

/-- C6 — changing a single payload byte of one shard (header intact) makes
join fail with the corruption error naming that shard's file; it never
succeeds on such input. -/
theorem join_detects_corruption (d : ShardSetDesc) (fs : FileSys) (idxs : List Nat)
    (k : Nat) (pre suf : List Byte) (b b2 : Byte)
    (hv : IsValidSet d fs) (hp : idxs.Perm (List.range' 1 d.count))
    (hk : k ∈ List.range' 1 d.count)
    (hpay : d.payloadAt k = pre ++ b :: suf)
    (hb2 : b2 < 256) (hne : b2 ≠ b) :
    join (corruptAt fs d k pre b2 suf) (idxs.map d.pathAt) =
      .error (.damaged (d.pathAt k)) := by
  obtain ⟨hc1, hlook, hinj, hbytes, hsize, hcrc⟩ := hv
  obtain ⟨hk1, hkc⟩ := List.mem_range'_1.mp hk
  cases idxs with
  | nil =>
    exfalso
    have h := hp.length_eq
    simp only [List.length_nil, List.length_range'] at h
    omega
  | cons i0 irest =>
    have hopen2 : ∀ i ∈ List.range' 1 d.count,
        openShard (corruptAt fs d k pre b2 suf) (d.pathAt i) =
          .ok (corruptFileAt d k pre b2 suf i) := by
      intro i hi
      by_cases hik : i = k
      · subst hik
        have hfs : corruptAt fs d i pre b2 suf (d.pathAt i) =
            some { hdr := (setFile d i).hdr, payload := pre ++ b2 :: suf } := by
          unfold corruptAt
          rw [if_pos rfl]
        have hopen3 := openShard_eq hfs rfl (by
          show (setFile d i).hdr.shard_size = sizeofShardHdr + (pre ++ b2 :: suf).length
          show sizeofShardHdr + (d.payloadAt i).length =
            sizeofShardHdr + (pre ++ b2 :: suf).length
          rw [hpay]
          simp)
        rw [hopen3]
        unfold corruptFileAt
        rw [if_pos rfl]
      · have hpath : d.pathAt i ≠ d.pathAt k := fun he => hik (hinj i hi k hk he)
        have hfs : corruptAt fs d k pre b2 suf (d.pathAt i) = fs (d.pathAt i) := by
          unfold corruptAt
          rw [if_neg hpath]
        have hopen3 : openShard (corruptAt fs d k pre b2 suf) (d.pathAt i) =
            .ok (setFile d i) :=
          openShard_setFile (hfs.trans (hlook i hi))
        rw [hopen3]
        unfold corruptFileAt
        rw [if_neg hik]
    have hhdr2 : ∀ i ∈ List.range' 1 d.count,
        (corruptFileAt d k pre b2 suf i).hdr = (setFile d i).hdr := by
      intro i _
      unfold corruptFileAt
      by_cases hik : i = k
      · subst hik
        rw [if_pos rfl]
      · rw [if_neg hik]
    have h1 := joinPhase1_set hopen2 hhdr2 hp
    -- split the index range at k
    have h0 := List.range'_append 1 (k - 1) (d.count - (k - 1)) 1
    rw [show 1 + 1 * (k - 1) = k by omega] at h0
    rw [show d.count - (k - 1) + (k - 1) = d.count by omega] at h0
    -- the shards before k stream through cleanly
    have hopenlow : ∀ i ∈ List.range' 1 (k - 1),
        openShard (corruptAt fs d k pre b2 suf) (d.pathAt i) = .ok (setFile d i) := by
      intro i hi
      obtain ⟨hi1, hi2⟩ := List.mem_range'_1.mp hi
      have hik : i ≠ k := by omega
      have hir : i ∈ List.range' 1 d.count := List.mem_range'_1.mpr ⟨hi1, by omega⟩
      have := hopen2 i hir
      rw [this]
      unfold corruptFileAt
      rw [if_neg hik]
    have h2 := joinStream_set (List.range' 1 (k - 1)) hopenlow 0 []
    -- at k the CRC check fails
    have hball : ∀ x ∈ pre ++ b :: suf, x < 256 := by
      rw [← hpay]
      exact hbytes k hk
    have h32 : (256 : Nat) < 2 ^ 32 := by norm_num
    have hcrcne : (corruptFileAt d k pre b2 suf k).hdr.shard_crc ≠
        updateCrc 0 (corruptFileAt d k pre b2 suf k).payload := by
      unfold corruptFileAt
      rw [if_pos rfl]
      show (setFile d k).hdr.shard_crc ≠ updateCrc 0 (pre ++ b2 :: suf)
      show updateCrc 0 (d.payloadAt k) ≠ updateCrc 0 (pre ++ b2 :: suf)
      rw [hpay]
      exact updateCrc_single_change
        (fun x hx => Nat.lt_trans (hball x (List.mem_append_left _ hx)) h32)
        (fun x hx => Nat.lt_trans
          (hball x (List.mem_append_right _ (List.mem_cons_of_mem _ hx))) h32)
        (Nat.lt_trans (hball b (List.mem_append_right _ (List.mem_cons_self _ _))) h32)
        (Nat.lt_trans hb2 h32) (fun he => hne he.symm) (by norm_num)
    have hdam : joinStream (corruptAt fs d k pre b2 suf)
        (pairsOf d (List.range' k (d.count - (k - 1)))) (updateCrc 0
          (((List.range' 1 (k - 1)).map d.payloadAt).flatten))
        ([] ++ ((List.range' 1 (k - 1)).map d.payloadAt).flatten) =
        .error (.damaged (d.pathAt k)) := by
      rw [show d.count - (k - 1) = (d.count - k) + 1 by omega, List.range'_succ]
      rw [show pairsOf d (k :: List.range' (k + 1) (d.count - k) 1) =
        (k, d.pathAt k) :: pairsOf d (List.range' (k + 1) (d.count - k) 1) from rfl]
      exact joinStream_damaged (hopen2 k hk) hcrcne
    have hstream : joinStream (corruptAt fs d k pre b2 suf)
        (pairsOf d (List.range' 1 d.count)) 0 [] = .error (.damaged (d.pathAt k)) := by
      rw [← h0]
      rw [show pairsOf d (List.range' 1 (k - 1) ++ List.range' k (d.count - (k - 1))) =
        pairsOf d (List.range' 1 (k - 1)) ++
          pairsOf d (List.range' k (d.count - (k - 1))) from List.map_append _ _ _]
      rw [joinStream_append (pairsOf d (List.range' 1 (k - 1))) h2]
      exact hdam
    have hjoin : join (corruptAt fs d k pre b2 suf) ((i0 :: irest).map d.pathAt) =
        (joinStream (corruptAt fs d k pre b2 suf)
          (pairsOf d (List.range' 1 d.count)) 0 []) >>= fun r2 =>
            if r2.2.length = (corruptFileAt d k pre b2 suf i0).hdr.original_size ∧
                r2.1 = (corruptFileAt d k pre b2 suf i0).hdr.original_crc then .ok r2.2
            else .error .reconstructFailed := by
      simp only [join, h1]
      rfl
    rw [hjoin, hstream]
    rfl

/-! ## Claim theorems: splitter behaviour on concrete inputs -/

/-- C1 — counter-evidence for the round-trip claim: for the 2-byte file
`[7, 9]` and `max_shard_size = 297` (which satisfies
`M ≥ sizeof(shard_hdr_t) + 1`), split computes `shard_count = ceil(2/297)
= 1` but caps the payload at `min(297 - 296, 2) = 1` byte, silently
dropping the second byte; join of the produced shard set then fails its
final size/CRC check (`join.cc:105-109`) instead of reproducing the file. -/
theorem split_join_roundtrip_bug :
    sizeofShardHdr + 1 ≤ 297 ∧
    split "f" [7, 9] 297 = .ok [⟨"f@1.1",
      ⟨0xB007C8AD, 1, 1, 2, updateCrc 0 [7, 9], 297, 0, "f"⟩,
      ⟨0xB007C8AD, 1, 1, 2, updateCrc 0 [7, 9], 297, updateCrc 0 [7], "f"⟩, [7]⟩] ∧
    join (fun p => if p = "f@1.1" then
        some ⟨⟨0xB007C8AD, 1, 1, 2, updateCrc 0 [7, 9], 297, updateCrc 0 [7], "f"⟩, [7]⟩
      else none) ["f@1.1"] = .error .reconstructFailed :=
  ⟨by decide, by decide, by decide⟩

/-- C2 — counter-evidence for the shard-sizing claim: for size `S = 2` and
limit `M = 297`, `shard_count = ceil(S/M) = 1`, so the claim says the last
(only) shard's payload is `S - 0·(M - header) = 2` bytes; the code instead
writes `min(M - sizeof(shard_hdr_t), 2) = 1` byte. -/
theorem split_last_shard_sizing_bug :
    (split "f" [7, 9] 297).map (fun l => l.map (fun s => s.payload.length)) = .ok [1] ∧
    ([7, 9] : List Byte).length - (1 - 1) * (297 - sizeofShardHdr) = 2 ∧
    (1 : Nat) ≠ 2 :=
  ⟨by decide, by decide, by decide⟩

/-- C3, counterexample — splitting a zero-byte source yields zero shards,
not one: `shard_count = (0 + 7 - 1) / 7 = 0` and the loop never runs. -/
theorem split_zero_byte_cex :
    split "doc.txt" [] 7 = .ok [] ∧ ([] : List ShardOut).length ≠ 1 :=
  ⟨split_nil "doc.txt" (by decide) (by decide), by decide⟩

/-- C3 (amended) — splitting a zero-byte source succeeds and yields zero
shard files, for any limit `M ≥ 1` and a base name that fits: ceiling
division gives `shard_count = 0`, so no shard is created. -/
theorem split_zero_byte_source (fn : String) (M : Nat) (h1 : 1 ≤ M)
    (h2 : (baseName fn).length < 256) : split fn [] M = .ok [] :=
  split_nil fn h1 h2

/-- Witness for `split_zero_byte_source` at `fn = "doc.txt"`, `M = 7`. -/
theorem split_zero_byte_source_witness :
    1 ≤ 7 ∧ (baseName "doc.txt").length < 256 ∧ split "doc.txt" [] 7 = .ok [] :=
  ⟨by decide, by decide, split_zero_byte_source "doc.txt" 7 (by decide) (by decide)⟩

/-- C4, counterexample — under the natural-alignment layout that `sizeof`
denotes in this code, the header record occupies 296 bytes, not the 288
bytes of the packed field sum: the struct has implicit padding. -/
theorem header_packed_288_cex :
    sizeofShardHdr = 296 ∧ packedShardHdrSize = 288 ∧
    sizeofShardHdr ≠ packedShardHdrSize :=
  ⟨by decide, by decide, by decide⟩

/-- C4 (amended) — the header record written and read through
`sizeof(shard_hdr_t)` is 296 bytes: the fields sit at offsets
0, 4, 6, 8, 16, 24, 32, 36 (4 bytes of implicit padding between
`original_crc` and `shard_size`, and 4 bytes of tail padding after
`original_name`), the packed field sum being 288; the magic constant is
`0xB007C8AD`. -/
theorem header_layout_296 :
    shardHdrOffsets = [0, 4, 6, 8, 16, 24, 32, 36] ∧ sizeofShardHdr = 296 ∧
    packedShardHdrSize = 288 ∧ expectedMagic = 0xB007C8AD :=
  ⟨by decide, by decide, by decide, by decide⟩

/-- C5, counterexample — a base name of exactly 255 characters (256 bytes
including the terminator) is accepted by split, not rejected: the check at
`split.cc:63` is `strlen(name) >= 256`. -/
theorem split_name_255_accepted_cex :
    (baseName (String.mk (List.replicate 255 'a'))).length + 1 = 256 ∧
    split (String.mk (List.replicate 255 'a')) [] 3 = .ok [] := by
  have hbn : baseName (String.mk (List.replicate 255 'a')) = List.replicate 255 'a' :=
    baseName_no_slash (fun c hc => by rw [List.eq_of_mem_replicate hc]; decide)
  constructor
  · rw [hbn, List.length_replicate]
  · exact split_nil _ (by decide) (by rw [hbn, List.length_replicate]; decide)

/-- C5 (amended) — a base name of 256 or more characters (257 or more
bytes including the terminator) makes split fail with the name-length
format error before any shard file is created, provided the shard-count
check just before it passes; a 255-character name is accepted
(`split_name_255_accepted_cex`). -/
theorem split_name_overflow (fn : String) (content : List Byte) (M : Nat)
    (hc : (content.length + M - 1) % U64 / M ≤ 65535)
    (hn : 256 ≤ (baseName fn).length) :
    split fn content M = .error .nameTooLong := by
  simp only [split]
  rw [if_neg (by omega), if_pos (by omega)]

/-- Witness for `split_name_overflow` at a 256-character base name. -/
theorem split_name_overflow_witness :
    (([] : List Byte).length + 1 - 1) % U64 / 1 ≤ 65535 ∧
    256 ≤ (baseName (String.mk (List.replicate 256 'a'))).length ∧
    split (String.mk (List.replicate 256 'a')) [] 1 = .error .nameTooLong := by
  have hbn : baseName (String.mk (List.replicate 256 'a')) = List.replicate 256 'a' :=
    baseName_no_slash (fun c hc => by rw [List.eq_of_mem_replicate hc]; decide)
  refine ⟨by decide, ?_, split_name_overflow _ [] 1 (by decide) ?_⟩
  · rw [hbn, List.length_replicate]
  · rw [hbn, List.length_replicate]

/-- C9, counterexample — the first header write of shard 2 does not carry
`shard_crc = 0`: the reused header struct still holds shard 1's final CRC
(nonzero for the content `[1, 0]` split with `M = 1`). -/
theorem split_placeholder_stale_cex :
    (split "f" [1, 0] 1).toOption.map (fun l => l.map (fun s => s.preHdr.shard_crc)) =
      some [0, updateCrc 0 [1, 0]] ∧ updateCrc 0 [1, 0] ≠ 0 :=
  ⟨by decide, by decide⟩

/-- C9 (amended) — in every successful split, shard 1's pre-payload header
write carries `shard_crc = 0`; each later shard's pre-payload header write
carries the previous shard's final CRC (the in-memory header struct is
reused across iterations); and each shard's header is rewritten exactly
once, changing only `shard_crc` to the payload's CRC. -/
theorem split_two_phase_headers (fn : String) (content : List Byte) (M : Nat)
    (shards : List ShardOut) (h : split fn content M = .ok shards) :
    (∀ s rest, shards = s :: rest → s.preHdr.shard_crc = 0) ∧
    (∀ i s t, shards[i]? = some s → shards[i + 1]? = some t →
        t.preHdr.shard_crc = s.hdr.shard_crc) ∧
    (∀ s ∈ shards, s.hdr = { s.preHdr with shard_crc := updateCrc 0 s.payload }) := by
  simp only [split] at h
  by_cases hc : (content.length + M - 1) % U64 / M > 65535
  · rw [if_pos hc] at h
    exact absurd h (by simp)
  rw [if_neg hc] at h
  by_cases hn : (baseName fn).length ≥ 256
  · rw [if_pos hn] at h
    exact absurd h (by simp)
  rw [if_neg hn] at h
  have h2 : splitLoop fn ((content.length + M - 1) % U64 / M) M
      ((content.length + M - 1) % U64 / M)
      { magic := expectedMagic, shard_idx := 0,
        shard_count := (content.length + M - 1) % U64 / M,
        original_size := content.length, original_crc := updateCrc 0 content,
        shard_size := 0, shard_crc := 0,
        original_name := String.mk (baseName fn) } content = shards := by
    injection h
  obtain ⟨l1, l2, l3⟩ := splitLoop_two_phase fn ((content.length + M - 1) % U64 / M) M
    ((content.length + M - 1) % U64 / M)
    { magic := expectedMagic, shard_idx := 0,
      shard_count := (content.length + M - 1) % U64 / M,
      original_size := content.length, original_crc := updateCrc 0 content,
      shard_size := 0, shard_crc := 0,
      original_name := String.mk (baseName fn) } content
  rw [h2] at l1 l2 l3
  exact ⟨l1, l2, l3⟩

/-- Witness for `split_two_phase_headers`: the one-shard split of `[1]`
with `M = 297` has a zero placeholder CRC in its first header write. -/
theorem split_two_phase_headers_witness :
    (⟨"f@1.1", ⟨0xB007C8AD, 1, 1, 1, updateCrc 0 [1], 297, 0, "f"⟩,
      ⟨0xB007C8AD, 1, 1, 1, updateCrc 0 [1], 297, updateCrc 0 [1], "f"⟩,
      [1]⟩ : ShardOut).preHdr.shard_crc = 0 :=
  (split_two_phase_headers "f" [1] 297
    [⟨"f@1.1", ⟨0xB007C8AD, 1, 1, 1, updateCrc 0 [1], 297, 0, "f"⟩,
      ⟨0xB007C8AD, 1, 1, 1, updateCrc 0 [1], 297, updateCrc 0 [1], "f"⟩, [1]⟩]
    (by decide)).1 _ [] rfl

/-- C10, counterexample — with `M = 1 < header size` and a 65536-byte
source, split does not succeed: `ceil(65536/1) = 65536 > 65535` trips the
shard-count check, so the claim's "split succeeds without error" fails
without a bound on the shard count. -/
theorem split_wrap_overflow_cex :
    split "f" (List.replicate 65536 1) 1 = .error .tooManyShards := by
  simp only [split, List.length_replicate]
  rw [if_pos (by norm_num [U64])]

/-- C10 (amended) — for a non-empty source and `1 ≤ M < sizeof(shard_hdr_t)`,
the unsigned `max_shard_size - sizeof(shard_hdr_t)` wraps modulo `2^64`,
so, provided `ceil(S/M) ≤ 65535` (else the shard-count check throws) and
the base name fits, split succeeds with shard 1 receiving the entire
source as its payload and every remaining shard written with an empty
payload. -/
theorem split_wraparound_swallows_source (fn : String) (content : List Byte) (M : Nat)
    (h0 : content ≠ []) (h1 : 1 ≤ M) (h2 : M < sizeofShardHdr)
    (hc : (content.length + M - 1) / M ≤ 65535)
    (hn : (baseName fn).length < 256) :
    (split fn content M).map (fun l => l.map (fun s => s.payload)) =
      .ok (content :: List.replicate ((content.length + M - 1) / M - 1) []) :=
  split_wrap_eq fn content M h0 h1 h2 hc hn

/-- Witness for `split_wraparound_swallows_source` at `content = [5, 6, 7]`,
`M = 2`: two shards, the first holding all three bytes. -/
theorem split_wraparound_swallows_source_witness :
    ([5, 6, 7] : List Byte) ≠ [] ∧ 2 < sizeofShardHdr ∧
    (([5, 6, 7] : List Byte).length + 2 - 1) / 2 ≤ 65535 ∧
    (split "a" [5, 6, 7] 2).map (fun l => l.map (fun s => s.payload)) =
      .ok [[5, 6, 7], []] :=
  ⟨by decide, by decide, by decide,
    split_wraparound_swallows_source "a" [5, 6, 7] 2 (by decide) (by decide)
      (by decide) (by decide) (by decide)⟩

/-! ## Claim witnesses: joiner theorems on concrete inputs -/

/-- Witness for `join_detects_corruption`: flipping the single payload
byte of the one-shard set `wset6` from 9 to 5 makes join fail naming that
shard. -/
theorem join_detects_corruption_witness :
    IsValidSet wset6 wfs6 ∧
    join (corruptAt wfs6 wset6 1 [] 5 []) ([1].map wset6.pathAt) =
      .error (.damaged (wset6.pathAt 1)) :=
  ⟨by decide, join_detects_corruption wset6 wfs6 [1] 1 [] [] 9 5 (by decide)
    (by decide) (by decide) (by decide) (by decide) (by decide)⟩

/-- Witness for `join_order_independent`: joining the two-shard set
`wset7` with the paths in reverse order still reconstructs
`[10, 20, 30]`. -/
theorem join_order_independent_witness :
    IsValidSet wset7 wfs7 ∧ ([2, 1] : List Nat).Perm (List.range' 1 wset7.count) ∧
    join wfs7 ([2, 1].map wset7.pathAt) = .ok (setContent wset7) :=
  ⟨by decide, by decide,
    join_order_independent wset7 wfs7 [2, 1] (by decide) (by decide)⟩

/-- Witness for `join_too_few_paths`: one path supplied against a master
header announcing two shards. -/
theorem join_too_few_paths_witness :
    openShard wfs8 "s1" = .ok wfile8 ∧
    ([] : List String).length + 1 < wfile8.hdr.shard_count ∧
    (join wfs8 ["s1"] =
        .error (.countMismatch (([] : List String).length + 1) wfile8.hdr.shard_count) ∧
      joinDestCreated wfs8 ["s1"] = false) :=
  ⟨by decide, by decide, join_too_few_paths wfs8 "s1" [] wfile8 (by decide) (by decide)⟩

end Chainsaw
